import Mathlib

/-!
The HTTP boundary of vision (`api/api.go`).

A shallow embedding of `api.go`: the alias map built from the configuration,
the `/aliases` listing, and the root handler that turns the query parameters
into a `QueryHolder`, hands it to `fileDriver.FileDriver` and writes the
outcome with `fmt.Fprintf`.

Go strings are embedded as Lean strings (sequences of Unicode scalar values),
so only valid UTF-8 Go strings are covered.  Go maps are association lists
with lookup by key.  The library functions the handler calls
(`strconv.ParseInt`, `strings.Join`, `fmt.Fprintf`, `ResponseWriter.Write`)
are embedded for the arguments the handler calls them with.
-/

set_option autoImplicit false

namespace Vision

/-! ## Go maps -/

/-- A Go `map[string]β`: an association list, looked up by key. -/
abbrev GoMap (β : Type) := List (String × β)

/-- The comma-ok read `v, ok := m[k]`: `some v` when the key is present. -/
def GoMap.get {β : Type} (m : GoMap β) (k : String) : Option β :=
  match m with
  | [] => none
  | (k0, v0) :: rest => if k0 = k then some v0 else GoMap.get rest k

/-- The assignment `m[k] = v`: overwrite the entry of `k` in place when the
key is present, add a new entry otherwise. -/
def GoMap.set {β : Type} (m : GoMap β) (k : String) (v : β) : GoMap β :=
  match m with
  | [] => [(k, v)]
  | (k0, v0) :: rest => if k0 = k then (k, v) :: rest else (k0, v0) :: GoMap.set rest k v

/-- The keys of a map. -/
def GoMap.keys {β : Type} (m : GoMap β) : List String := m.map Prod.fst

/-! ## strconv.ParseInt(s, 10, 64) -/

/-- The `*strconv.NumError` value: the failing function, the input and the
reason. -/
structure NumError where
  Func : String
  Num : String
  Err : String
deriving DecidableEq, Repr

/-- The text of `strconv.ErrSyntax`. -/
def ErrSyntaxText : String := "invalid syntax"

/-- The text of `strconv.ErrRange`. -/
def ErrRangeText : String := "value out of range"

/-- The `NumError` for a malformed number (strconv's syntax-error helper). -/
def numSyntaxErr (fn str : String) : NumError := ⟨fn, str, ErrSyntaxText⟩

/-- The `NumError` for an out-of-range number (strconv's `rangeError`). -/
def rangeError (fn str : String) : NumError := ⟨fn, str, ErrRangeText⟩

/-- The method `(*NumError).Error`; `quote` stands for `strconv.Quote`. -/
def NumError.Error (quote : String → String) (e : NumError) : String :=
  "strconv." ++ e.Func ++ ": " ++ "parsing " ++ quote e.Num ++ ": " ++ e.Err

/-- The largest `uint64`. -/
def maxUint64 : Nat := 2 ^ 64 - 1

/-- The digit loop of `strconv.ParseUint` at base 10 and bitSize 64, from the
accumulator `n`.  A byte outside '0'..'9' is a syntax error (a letter is a
digit of value at least 10, which base 10 refuses; '_' is only skipped at
base 0).  The result is Go's pair of value and error. -/
def ParseUintLoop (s0 : String) : List Char → Nat → Nat × Option NumError
  | [], n => (n, none)
  | c :: cs, n =>
    if 48 ≤ c.toNat ∧ c.toNat ≤ 57 then
      let d := c.toNat - 48
      if n ≥ maxUint64 / 10 + 1 then
        (maxUint64, some (rangeError "ParseUint" s0))
      else
        let n10 := (n * 10) % 2 ^ 64
        let n1 := (n10 + d) % 2 ^ 64
        if n1 < n10 ∨ n1 > maxUint64 then
          (maxUint64, some (rangeError "ParseUint" s0))
        else
          ParseUintLoop s0 cs n1
    else
      (0, some (numSyntaxErr "ParseUint" s0))

/-- The function `strconv.ParseUint(s, 10, 64)`. -/
def ParseUint (s : String) : Nat × Option NumError :=
  if s = "" then (0, some (numSyntaxErr "ParseUint" s))
  else ParseUintLoop s s.data 0

/-- The conversion `int64(x)` of an integer: reduction into the signed 64-bit
range. -/
def toInt64 (x : Int) : Int := (x + 2 ^ 63) % 2 ^ 64 - 2 ^ 63

/-- The function `strconv.ParseInt(s, 10, 64)`: Go's pair of value and
error. -/
def ParseInt (s : String) : Int × Option NumError :=
  if s = "" then (0, some (numSyntaxErr "ParseInt" s))
  else
    let s0 := s
    let neg : Bool := s.data.head? = some '-'
    let s1 : String :=
      if s.data.head? = some '+' then ⟨s.data.tail⟩
      else if s.data.head? = some '-' then ⟨s.data.tail⟩
      else s
    match ParseUint s1 with
    | (un, err) =>
      match err.filter (fun e => e.Err ≠ ErrRangeText) with
      | some e => (0, some ⟨"ParseInt", s0, e.Err⟩)
      | none =>
        let cutoff : Nat := 2 ^ 63
        if ¬ neg ∧ un ≥ cutoff then
          (toInt64 (cutoff - 1 : Nat), some (rangeError "ParseInt" s0))
        else if neg ∧ un > cutoff then
          (toInt64 (-(toInt64 cutoff)), some (rangeError "ParseInt" s0))
        else
          let n := toInt64 un
          (if neg then toInt64 (-n) else n, none)

/-! ## strconv.Quote -/

/-- The digits of strconv's `lowerhex`. -/
def lowerhex (n : Nat) : Char := "0123456789abcdef".data.getD n '0'

/-- The function `strconv.IsPrint`; `isPrintWide` stands for the Unicode
tables consulted for runes above U+00FF. -/
def IsPrint (isPrintWide : Char → Bool) (r : Char) : Bool :=
  if r.toNat ≤ 0xFF then
    if 0x20 ≤ r.toNat ∧ r.toNat ≤ 0x7E then true
    else if 0xA1 ≤ r.toNat ∧ r.toNat ≤ 0xFF then r.toNat ≠ 0xAD
    else false
  else isPrintWide r

/-- The function `appendEscapedRune` of strconv, for the double quote and
with `ASCIIonly` and `graphicOnly` false: the characters appended for `r`. -/
def appendEscapedRune (isPrintWide : Char → Bool) (r : Char) : List Char :=
  if r = '"' ∨ r = '\\' then ['\\', r]
  else if IsPrint isPrintWide r then [r]
  else if r.toNat = 7 then ['\\', 'a']
  else if r.toNat = 8 then ['\\', 'b']
  else if r.toNat = 12 then ['\\', 'f']
  else if r = '\n' then ['\\', 'n']
  else if r = '\r' then ['\\', 'r']
  else if r = '\t' then ['\\', 't']
  else if r.toNat = 11 then ['\\', 'v']
  else if r.toNat < 0x20 ∨ r.toNat = 0x7f then
    ['\\', 'x', lowerhex (r.toNat / 16), lowerhex (r.toNat % 16)]
  else if r.toNat < 0x10000 then
    ['\\', 'u'] ++ [12, 8, 4, 0].map (fun s => lowerhex (r.toNat / 2 ^ s % 16))
  else
    ['\\', 'U'] ++ [28, 24, 20, 16, 12, 8, 4, 0].map (fun s => lowerhex (r.toNat / 2 ^ s % 16))

/-- The function `strconv.Quote`. -/
def Quote (isPrintWide : Char → Bool) (s : String) : String :=
  ⟨['"'] ++ (s.data.map (appendEscapedRune isPrintWide)).flatten ++ ['"']⟩

/-! ## fmt.Fprintf with a format and no operands -/

/-- The constant bound test `tooLarge` of fmt. -/
def tooLarge (x : Nat) : Bool := decide (x > 1000000)

/-- The loop of fmt's `parsenum` over the characters between `start` and
`end`: the number read, whether a digit was read, and what is left of the
segment (nothing on overflow, where Go returns `end`). -/
def parsenumLoop : List Char → Nat → Bool → Nat × Bool × List Char
  | [], num, isnum => (num, isnum, [])
  | c :: cs, num, isnum =>
    if 48 ≤ c.toNat ∧ c.toNat ≤ 57 then
      if tooLarge num then (0, false, [])
      else parsenumLoop cs (num * 10 + (c.toNat - 48)) true
    else (num, isnum, c :: cs)

/-- The function `parsenum` of fmt on the segment `s[start:end]`. -/
def parsenum (seg : List Char) : Nat × Bool × List Char :=
  if seg = [] then (0, false, []) else parsenumLoop seg 0 false

/-- The search for the closing bracket in `parseArgNumber`: what stands before
the first ']' and what follows it. -/
def findClose : List Char → Option (List Char × List Char)
  | [] => none
  | c :: cs =>
    if c = ']' then some ([], cs)
    else (findClose cs).map (fun p => (c :: p.1, p.2))

/-- The length of a string in bytes, Go's `len`. -/
def byteLen (s : List Char) : Nat := (s.map Char.utf8Size).sum

/-- The function `parseArgNumber` of fmt on a text that starts with '[':
the index, what is left after the `wid` bytes consumed, and `ok`. -/
def parseArgNumber (format : List Char) : Int × List Char × Bool :=
  if byteLen format < 3 then (0, format.drop 1, false)
  else
    match findClose (format.drop 1) with
    | none => (0, format.drop 1, false)
    | some (inner, rest) =>
      match parsenum inner with
      | (width, ok, newi) =>
        if ¬ ok ∨ newi ≠ [] then (0, rest, false)
        else ((width : Int) - 1, rest, true)

/-- The method `argNumber` of fmt with `numArgs` operands: what is left of the
format, `found`, and the new value of `goodArgNum`.  The operand number is
not tracked: with no operands it stays 0. -/
def argNumber (numArgs : Nat) (format : List Char) (goodArgNum : Bool) :
    List Char × Bool × Bool :=
  match format with
  | '[' :: _ =>
    match parseArgNumber format with
    | (index, rest, ok) =>
      if ok ∧ 0 ≤ index ∧ index < numArgs then (rest, true, goodArgNum)
      else (rest, ok, false)
  | _ => (format, false, goodArgNum)

/-- The flag characters skipped after a '%'. -/
def isFlag (c : Char) : Bool := c = '#' ∨ c = '0' ∨ c = '+' ∨ c = '-' ∨ c = ' '

/-- The width part of one pass of `doPrintf` ("Do we have width?"), with no
operands: the text written, what is left of the format, `afterIndex` and
`goodArgNum`. -/
def widthStep (format : List Char) (afterIndex goodArgNum : Bool) :
    List Char × List Char × Bool × Bool :=
  match format with
  | '*' :: t => ("%!(BADWIDTH)".data, t, false, goodArgNum)
  | _ =>
    match parsenum format with
    | (_, widPresent, t) =>
      ([], t, afterIndex, if afterIndex ∧ widPresent then false else goodArgNum)

/-- The precision part of one pass of `doPrintf` ("Do we have precision?"),
with no operands: the text written, what is left of the format, `afterIndex`
and `goodArgNum`.  A '.' opens a precision only when something follows it
(`i+1 < end`); a '.' that ends the format is left to be read as the verb. -/
def precStep (format : List Char) (afterIndex goodArgNum : Bool) :
    List Char × List Char × Bool × Bool :=
  match format with
  | '.' :: c :: cs =>
    match argNumber 0 (c :: cs) (if afterIndex then false else goodArgNum) with
    | (t1, afterIndex1, good1) =>
      match t1 with
      | '*' :: t2 => ("%!(BADPREC)".data, t2, false, good1)
      | _ =>
        match parsenum t1 with
        | (_, _, t2) => ([], t2, afterIndex1, good1)
  | _ => ([], format, afterIndex, goodArgNum)

/-- The end of one pass of `doPrintf`, with no operands: the verb is read, if
there is one, and "%" or a complaint is written after the text `out` of the
earlier parts. -/
def verbStep (out format : List Char) (goodArgNum : Bool) : List Char × List Char :=
  match format with
  | [] => (out ++ "%!(NOVERB)".data, [])
  | verb :: rest =>
    if verb = '%' then (out ++ ['%'], rest)
    else if ¬ goodArgNum then (out ++ "%!".data ++ [verb] ++ "(BADINDEX)".data, rest)
    else (out ++ "%!".data ++ [verb] ++ "(MISSING)".data, rest)

/-- One pass of the body of `doPrintf` after a '%', with no operands: the
text written and what is left of the format.  The argument is the format
after the '%'. -/
def doVerb (afterPercent : List Char) : List Char × List Char :=
  match argNumber 0 (afterPercent.dropWhile isFlag) true with
  | (s2, afterIndex2, good2) =>
    match widthStep s2 afterIndex2 good2 with
    | (out3, s3, afterIndex3, good3) =>
      match precStep s3 afterIndex3 good3 with
      | (out4, s4, afterIndex4, good4) =>
        match (if ¬ afterIndex4 then argNumber 0 s4 good4 else (s4, afterIndex4, good4)) with
        | (s5, _, good5) => verbStep (out3 ++ out4) s5 good5

/-- The loop of `doPrintf` with no operands: copy the text up to the next '%',
then process one verb.  Every pass consumes at least the '%', so a fuel of
the length of the format plus one is never used up. -/
def doPrintf : Nat → List Char → List Char → List Char
  | 0, _, buf => buf
  | fuel + 1, format, buf =>
    let buf1 := buf ++ format.takeWhile (fun c => c ≠ '%')
    match format.dropWhile (fun c => c ≠ '%') with
    | [] => buf1
    | _ :: afterPercent =>
      match doVerb afterPercent with
      | (out, rest) => doPrintf fuel rest (buf1 ++ out)

/-- The text `fmt.Sprintf(format)` produces with no operands. -/
def Sprintf (format : String) : String :=
  ⟨doPrintf (format.data.length + 1) format.data []⟩

/-! ## net/http: the response writer -/

/-- The state of an `http.ResponseWriter`: the header map, the status line
(`none` until the header has been written) and the body written so far. -/
structure ResponseWriter where
  header : GoMap (List String)
  status : Option Nat
  body : String
deriving DecidableEq, Repr

/-- The method `Write`: the first write sends the header with status 200 when
no status has been written yet; the bytes are appended to the body. -/
def ResponseWriter.Write (w : ResponseWriter) (p : String) : ResponseWriter :=
  { w with status := some (w.status.getD 200), body := w.body ++ p }

/-- The call `fmt.Fprintf(w, format)` with no operands: the expanded format
goes to `w` in one `Write`. -/
def Fprintf (w : ResponseWriter) (format : String) : ResponseWriter :=
  w.Write (Sprintf format)

/-! ## strings.Join -/

/-- The function `strings.Join`. -/
def Join (elems : List String) (sep : String) : String :=
  match elems with
  | [] => ""
  | [e] => e
  | e :: rest => rest.foldl (fun b s => b ++ sep ++ s) e

/-! ## The models package -/

/-- Modelled from the spec: the declaration of `models.AliasModel`, the element
type of `ConfigModel.Aliases`, is not among the sources; the fields are the two
that `createAliasMap` reads. -/
structure AliasModel where
  AliasName : String
  AliasTo : String
deriving DecidableEq, Repr

/-- Modelled from the spec: the declaration of `models.ConfigModel` is not
among the sources; the fields are the two that `api.go` reads, the listen port
and the alias list. -/
structure ConfigModel where
  Port : Int
  Aliases : List AliasModel
deriving DecidableEq, Repr

/-- Modelled from the spec: the declaration of `models.QueryHolder` is not
among the sources; the fields are those of the composite literal that
`apiHandler` builds. -/
structure QueryHolder where
  Path : String
  Alias : String
  ReadFrom : String
  Limit : Int
  Regex : String
  NegateRegex : String
  Grep : String
deriving DecidableEq, Repr

/-! ## api.go -/

/-- The loop of `createAliasMap`: every configured alias is stored under its
name, in the order of the configuration. -/
def createAliasMapLoop : List AliasModel → GoMap String → GoMap String
  | [], aliasesTemp => aliasesTemp
  | entry :: rest, aliasesTemp =>
    createAliasMapLoop rest (aliasesTemp.set entry.AliasName entry.AliasTo)

/-- The function `createAliasMap`: the value assigned to the global `aliases`. -/
def createAliasMap (configJson : ConfigModel) : GoMap String :=
  createAliasMapLoop configJson.Aliases []

/-- The function `allAliases`.  A Go `range` over a map visits every entry
once in an order the runtime picks; `visit` is the sequence of entries in the
order of the visit. -/
def allAliases (visit : List (String × String)) : String :=
  let aliasesSlice : List String :=
    visit.foldl (fun slice kv => slice ++ [kv.1 ++ " : " ++ kv.2]) []
  if aliasesSlice.length ≠ 0 then
    let aliasesString := Join aliasesSlice "\n"
    aliasesString
  else
    ""

/-- The function `aliasHandler`. -/
def aliasHandler (visit : List (String × String)) (w : ResponseWriter) : ResponseWriter :=
  let response := allAliases visit
  Fprintf w response

/-- The parsed query `r.URL.Query()`, a `url.Values`. -/
abbrev Values := GoMap (List String)

/-- The index expression `slice[0]`: `none` is the run-time panic of an index
out of range. -/
def index0 (slice : List String) : Option String := slice.head?

/-- The type of `fileDriver.FileDriver`, which is not among the sources: from
the request, the alias map and the configuration to Go's pair of response and
error (`none` is a nil error, `some msg` an error whose `Error()` is `msg`). -/
abbrev FileDriverFn := QueryHolder → GoMap String → ConfigModel → String × Option String

/-- What one run of a handler leaves behind: the response writer, and the
arguments of every call of `FileDriver` it made, in order. -/
structure Run where
  w : ResponseWriter
  calls : List (QueryHolder × GoMap String × ConfigModel)
deriving DecidableEq, Repr

/-- The function `apiHandler`.  `none` is a run-time panic.  `quote` stands for
`strconv.Quote` (used by the text of a parse error), `FileDriver` is
`fileDriver.FileDriver`, `aliases` and `configJson` are the globals, `query`
is `r.URL.Query()`.  The local `alias` of the source is `aliasArg` here. -/
def apiHandler (quote : String → String) (FileDriver : FileDriverFn)
    (aliases : GoMap String) (configJson : ConfigModel)
    (w : ResponseWriter) (query : Values) : Option Run := do
  let mut path := ""
  let mut readFrom := "tail"
  let mut limit : Int := 10
  let mut posRegex := ""
  let mut negRegex := ""
  let mut aliasArg := ""
  if let some pathSlice := query.get "path" then
    path ← index0 pathSlice
  if let some readFromSlice := query.get "readFrom" then
    readFrom ← index0 readFromSlice
  if let some limitSlice := query.get "limit" then
    match ParseInt (← index0 limitSlice) with
    | (_, some err) =>
      return ⟨Fprintf w (err.Error quote), []⟩
    | (limitTemp, none) =>
      limit := limitTemp
  if let some posRegexSlice := query.get "filterBy" then
    posRegex ← index0 posRegexSlice
  if let some negRegexSlice := query.get "ignore" then
    negRegex ← index0 negRegexSlice
  if let some aliasSlice := query.get "alias" then
    aliasArg ← index0 aliasSlice
  let request : QueryHolder :=
    { Path := path, Alias := aliasArg, ReadFrom := readFrom, Limit := limit,
      Regex := posRegex, NegateRegex := negRegex, Grep := "" }
  match FileDriver request aliases configJson with
  | (_, some err) =>
    return ⟨Fprintf w err, [(request, aliases, configJson)]⟩
  | (response, none) =>
    return ⟨Fprintf w response, [(request, aliases, configJson)]⟩

/-! ## Reading the query -/

/-- The precondition on a parsed query: a key that is present has at least one
value (`url.ParseQuery` only ever appends a value to the list of its key). -/
def WellFormed (query : Values) : Prop :=
  ∀ k vs, query.get k = some vs → vs ≠ []

/-- The first supplied value of a query parameter, `none` when the parameter
is absent (or has no value). -/
def param (query : Values) (k : String) : Option String :=
  (query.get k).bind List.head?

/-- The request `apiHandler` assembles from the query once the limit is
known. -/
def requestOf (query : Values) (limit : Int) : QueryHolder :=
  { Path := (param query "path").getD "",
    Alias := (param query "alias").getD "",
    ReadFrom := (param query "readFrom").getD "tail",
    Limit := limit,
    Regex := (param query "filterBy").getD "",
    NegateRegex := (param query "ignore").getD "",
    Grep := "" }

/-- The tail of `apiHandler`: the call of `FileDriver` and the write of its
outcome. -/
def relay (FileDriver : FileDriverFn) (aliases : GoMap String) (configJson : ConfigModel)
    (w : ResponseWriter) (request : QueryHolder) : Run :=
  match FileDriver request aliases configJson with
  | (_, some err) => ⟨Fprintf w err, [(request, aliases, configJson)]⟩
  | (response, none) => ⟨Fprintf w response, [(request, aliases, configJson)]⟩

/-! ## The words of the specification -/

/-- A decimal digit, '0' to '9'. -/
def isDecimalDigit (c : Char) : Prop := 48 ≤ c.toNat ∧ c.toNat ≤ 57

instance (c : Char) : Decidable (isDecimalDigit c) := by
  unfold isDecimalDigit; exact inferInstance

/-- The number a string of decimal digits denotes, read after the number
`n`. -/
def valFrom (n : Nat) (ds : List Char) : Nat :=
  ds.foldl (fun a c => a * 10 + (c.toNat - 48)) n

/-- A non-empty string of decimal digits. -/
def isDigits (ds : List Char) : Prop := ds ≠ [] ∧ ∀ c ∈ ds, isDecimalDigit c

instance (ds : List Char) : Decidable (isDigits ds) := by
  unfold isDigits; exact inferInstance

/-- The reading of "a base-10 integer that fits in a signed 64-bit integer":
an optional sign and a non-empty string of decimal digits whose value lies
between -2^63 and 2^63 - 1; the result is that value. -/
def base10Int64 (s : String) : Option Int :=
  match s.data with
  | '-' :: ds =>
    if isDigits ds ∧ valFrom 0 ds ≤ 2 ^ 63 then some (-(valFrom 0 ds : Int)) else none
  | '+' :: ds =>
    if isDigits ds ∧ valFrom 0 ds < 2 ^ 63 then some (valFrom 0 ds : Int) else none
  | ds =>
    if isDigits ds ∧ valFrom 0 ds < 2 ^ 63 then some (valFrom 0 ds : Int) else none

/-- The limit a request asks for: 10 when the parameter is absent, the value
of its first occurrence when that is a base-10 signed 64-bit integer, and
`none` when it is not. -/
def requestedLimit (query : Values) : Option Int :=
  match param query "limit" with
  | none => some 10
  | some s => base10Int64 s

/-- The line of the alias listing for one entry of the map. -/
def aliasLine (kv : String × String) : String := kv.1 ++ " : " ++ kv.2

/-- Lines joined by single newline separators, none before the first line and
none after the last. -/
def joinLines : List String → String
  | [] => ""
  | [l] => l
  | l :: rest => l ++ "\n" ++ joinLines rest

/-! ## Sample values -/

/-- A response writer nothing has been written to. -/
def freshWriter : ResponseWriter := ⟨[], none, ""⟩

/-- A configuration with two aliases. -/
def sampleConfig : ConfigModel :=
  ⟨8080, [⟨"syslog", "/var/log/syslog"⟩, ⟨"app", "/var/log/app.log"⟩]⟩

/-- The entries of the alias map of `sampleConfig`, visited last to first. -/
def sampleVisit : List (String × String) :=
  [("app", "/var/log/app.log"), ("syslog", "/var/log/syslog")]

/-- A stand-in for the printability tables above U+00FF. -/
def noWidePrint : Char → Bool := fun _ => false

/-- A driver that answers with a line naming what it was asked for. -/
def echoDriver : FileDriverFn :=
  fun request _ _ => (request.ReadFrom ++ " " ++ request.Path ++ request.Alias, none)

/-- A driver that fails every request. -/
def failingDriver : FileDriverFn :=
  fun _ _ _ => ("", some "open /nowhere: no such file or directory")

/-- A driver whose file ends with the line "progress 100%". -/
def percentDriver : FileDriverFn :=
  fun _ _ _ => ("progress 100%", none)

/-- A query with a repeated parameter and an empty value. -/
def sampleQuery : Values :=
  [("path", ["/var/log/syslog"]), ("limit", ["25", "7"]), ("filterBy", [""]),
    ("readFrom", ["head"])]

/-- A query whose limit is no number. -/
def badLimitQuery : Values :=
  [("path", ["/var/log/syslog"]), ("limit", ["ten"]), ("alias", ["app"])]

/-- A query with a negative limit. -/
def negativeLimitQuery : Values := [("path", ["/var/log/syslog"]), ("limit", ["-5"])]

/-- A query with a direction that is neither head nor tail. -/
def sidewaysQuery : Values := [("path", ["/var/log/syslog"]), ("readFrom", ["sideways"])]

/-- A query with an alias that is not configured. -/
def unknownAliasQuery : Values := [("alias", ["nope"])]

/-- A query whose limit holds a format verb. -/
def percentLimitQuery : Values := [("limit", ["%d"])]

/-- A query with a path, an alias and a limit that holds a format verb. -/
def percentBadLimitQuery : Values :=
  [("path", ["/var/log/syslog"]), ("limit", ["%d"]), ("alias", ["app"])]

/-! ## Lemmas -/

/-! ### fmt.Fprintf: the loop ends -/

theorem parsenumLoop_length (seg : List Char) :
    ∀ num isnum, (parsenumLoop seg num isnum).2.2.length ≤ seg.length := by
  induction seg with
  | nil => intro num isnum; simp [parsenumLoop]
  | cons c cs ih =>
    intro num isnum
    unfold parsenumLoop
    split
    · split
      · simp
      · exact Nat.le_succ_of_le (ih _ _)
    · simp

theorem parsenum_length (seg : List Char) : (parsenum seg).2.2.length ≤ seg.length := by
  unfold parsenum
  split
  · simp
  · exact parsenumLoop_length seg 0 false

theorem findClose_length (cs : List Char) :
    ∀ inner rest, findClose cs = some (inner, rest) → rest.length < cs.length := by
  induction cs with
  | nil => intro inner rest h; simp [findClose] at h
  | cons c t ih =>
    intro inner rest h
    unfold findClose at h
    split at h
    · simp only [Option.some.injEq, Prod.mk.injEq] at h
      rw [← h.2]; simp
    · cases hf : findClose t with
      | none => rw [hf] at h; simp at h
      | some p =>
        rw [hf] at h
        simp only [Option.map_some', Option.some.injEq, Prod.mk.injEq] at h
        have := ih p.1 p.2 hf
        rw [← h.2]
        simp only [List.length_cons]
        omega

theorem parseArgNumber_length (format : List Char) :
    (parseArgNumber format).2.1.length ≤ format.length := by
  unfold parseArgNumber
  split
  · simp
  · cases hf : findClose (format.drop 1) with
    | none => simp
    | some p =>
      obtain ⟨inner, rest⟩ := p
      have h1 := findClose_length _ inner rest hf
      have h2 : (format.drop 1).length ≤ format.length := by simp
      simp only
      split
      · simp only; omega
      · simp only; omega

theorem argNumber_length (numArgs : Nat) (format : List Char) (good : Bool) :
    (argNumber numArgs format good).1.length ≤ format.length := by
  unfold argNumber
  split
  · next t =>
    have h := parseArgNumber_length ('[' :: t)
    split
    next index rest ok heq =>
    rw [heq] at h
    split <;> exact h
  · simp

theorem widthStep_length (format : List Char) (a g : Bool) :
    (widthStep format a g).2.1.length ≤ format.length := by
  unfold widthStep
  split
  · simp
  · exact parsenum_length format

theorem precStep_length (format : List Char) (a g : Bool) :
    (precStep format a g).2.1.length ≤ format.length := by
  unfold precStep
  split
  · next c cs =>
    have h1 := argNumber_length 0 (c :: cs) (if a then false else g)
    generalize argNumber 0 (c :: cs) (if a then false else g) = r1 at h1 ⊢
    obtain ⟨t1, a1, g1⟩ := r1
    simp only at h1 ⊢
    split
    · next t2 =>
      simp only [List.length_cons] at h1 ⊢
      omega
    · have h2 := parsenum_length t1
      generalize parsenum t1 = r2 at h2 ⊢
      obtain ⟨n2, p2, t2⟩ := r2
      simp only [List.length_cons] at h1 h2 ⊢
      omega
  · simp

theorem verbStep_length (out format : List Char) (g : Bool) :
    (verbStep out format g).2.length ≤ format.length := by
  unfold verbStep
  split
  · simp
  · split
    · simp
    · split <;> simp

theorem doVerb_length (s : List Char) : (doVerb s).2.length ≤ s.length := by
  unfold doVerb
  have h1 : (s.dropWhile isFlag).length ≤ s.length := (List.dropWhile_sublist isFlag).length_le
  have h2 := argNumber_length 0 (s.dropWhile isFlag) true
  have h3 := widthStep_length (argNumber 0 (s.dropWhile isFlag) true).1
    (argNumber 0 (s.dropWhile isFlag) true).2.1 (argNumber 0 (s.dropWhile isFlag) true).2.2
  generalize argNumber 0 (s.dropWhile isFlag) true = r2 at h2 h3 ⊢
  obtain ⟨s2, a2, g2⟩ := r2
  simp only at h2 h3 ⊢
  have h4 := precStep_length (widthStep s2 a2 g2).2.1 (widthStep s2 a2 g2).2.2.1
    (widthStep s2 a2 g2).2.2.2
  generalize widthStep s2 a2 g2 = r3 at h3 h4 ⊢
  obtain ⟨out3, s3, a3, g3⟩ := r3
  simp only at h3 h4 ⊢
  generalize precStep s3 a3 g3 = r4 at h4 ⊢
  obtain ⟨out4, s4, a4, g4⟩ := r4
  simp only at h4 ⊢
  have h5 : (if ¬ a4 = true then argNumber 0 s4 g4 else (s4, a4, g4)).1.length ≤ s4.length := by
    split
    · exact argNumber_length 0 s4 g4
    · simp
  generalize (if ¬ a4 = true then argNumber 0 s4 g4 else (s4, a4, g4)) = r5 at h5 ⊢
  obtain ⟨s5, a5, g5⟩ := r5
  simp only at h5 ⊢
  have h6 := verbStep_length (out3 ++ out4) s5 g5
  omega

theorem doPrintf_fuel (f1 : Nat) :
    ∀ (f2 : Nat) (format buf : List Char), format.length < f1 → format.length < f2 →
      doPrintf f1 format buf = doPrintf f2 format buf := by
  induction f1 with
  | zero => intro f2 format buf h; omega
  | succ n ih =>
    intro f2 format buf h1 h2
    cases f2 with
    | zero => omega
    | succ m =>
      unfold doPrintf
      simp only
      cases hd : format.dropWhile (fun c => decide (c ≠ '%')) with
      | nil => rfl
      | cons c afterPercent =>
        simp only
        have hl : (format.dropWhile (fun c => decide (c ≠ '%'))).length ≤ format.length :=
          (List.dropWhile_sublist _).length_le
        rw [hd] at hl
        simp only [List.length_cons] at hl
        have hv := doVerb_length afterPercent
        exact ih m _ _ (by omega) (by omega)

/-- More fuel than the length of the format plus one changes nothing: the
loop of `doPrintf` always ends by reaching the end of the format. -/
theorem Sprintf_fuel (format : String) (extra : Nat) :
    doPrintf (format.data.length + 1 + extra) format.data [] = (Sprintf format).data := by
  unfold Sprintf
  exact doPrintf_fuel _ _ _ _ (by omega) (by omega)

/-! ### strconv.ParseInt and the handler's shape -/

theorem get_cases (query : Values) (hq : WellFormed query) (k : String) :
    (query.get k = none ∧ param query k = none) ∨
      ∃ v vs, query.get k = some (v :: vs) ∧ param query k = some v := by
  cases h : query.get k with
  | none => left; simp [param, h]
  | some l =>
    cases l with
    | nil => exact absurd rfl (hq k [] h)
    | cons v vs => right; exact ⟨v, vs, rfl, by simp [param, h]⟩

theorem apiHandler_eq (quote : String → String) (FileDriver : FileDriverFn)
    (aliases : GoMap String) (configJson : ConfigModel)
    (w : ResponseWriter) (query : Values) (hq : WellFormed query) :
    apiHandler quote FileDriver aliases configJson w query =
      match param query "limit" with
      | none => some (relay FileDriver aliases configJson w (requestOf query 10))
      | some s =>
        match ParseInt s with
        | (_, some err) => some ⟨Fprintf w (err.Error quote), []⟩
        | (n, none) => some (relay FileDriver aliases configJson w (requestOf query n)) := by
  unfold apiHandler
  rcases get_cases query hq "path" with ⟨h1, g1⟩ | ⟨v1, vs1, h1, g1⟩ <;>
  rcases get_cases query hq "readFrom" with ⟨h2, g2⟩ | ⟨v2, vs2, h2, g2⟩ <;>
  rcases get_cases query hq "limit" with ⟨h3, g3⟩ | ⟨v3, vs3, h3, g3⟩ <;>
  rcases get_cases query hq "filterBy" with ⟨h4, g4⟩ | ⟨v4, vs4, h4, g4⟩ <;>
  rcases get_cases query hq "ignore" with ⟨h5, g5⟩ | ⟨v5, vs5, h5, g5⟩ <;>
  rcases get_cases query hq "alias" with ⟨h6, g6⟩ | ⟨v6, vs6, h6, g6⟩ <;>
  simp only [h1, h2, h3, h4, h5, h6, g1, g2, g3, g4, g5, g6, index0, relay, requestOf,
    List.head?, Option.getD, bind, Option.bind, pure] <;>
  first
  | (rcases ParseInt v3 with ⟨n, _ | e⟩ <;> simp <;>
      rcases FileDriver _ aliases configJson with ⟨a, _ | e⟩ <;> rfl)
  | (rcases FileDriver _ aliases configJson with ⟨a, _ | e⟩ <;> rfl)

theorem valFrom_ge (ds : List Char) : ∀ n, n ≤ valFrom n ds := by
  induction ds with
  | nil => intro n; simp [valFrom]
  | cons c cs ih =>
    intro n
    have h := ih (n * 10 + (c.toNat - 48))
    simp only [valFrom, List.foldl_cons] at h ⊢
    omega

theorem ParseUintLoop_digits (s0 : String) (ds : List Char) :
    ∀ n, (∀ c ∈ ds, isDecimalDigit c) → n < 2 ^ 64 →
      ParseUintLoop s0 ds n =
        if valFrom n ds < 2 ^ 64 then (valFrom n ds, none)
        else (maxUint64, some (rangeError "ParseUint" s0)) := by
  induction ds with
  | nil =>
    intro n _ hn
    simp only [ParseUintLoop, valFrom, List.foldl_nil]
    rw [if_pos hn]
  | cons c cs ih =>
    intro n hd hn
    have hc : 48 ≤ c.toNat ∧ c.toNat ≤ 57 := hd c (List.mem_cons_self _ _)
    have hcs : ∀ x ∈ cs, isDecimalDigit x := fun x hx => hd x (List.mem_cons_of_mem _ hx)
    have hge := valFrom_ge cs (n * 10 + (c.toNat - 48))
    have hv : valFrom n (c :: cs) = valFrom (n * 10 + (c.toNat - 48)) cs := by
      simp [valFrom]
    rw [hv]
    unfold ParseUintLoop
    simp only [hc, and_self, if_true]
    by_cases h1 : n ≥ maxUint64 / 10 + 1
    · have : ¬ valFrom (n * 10 + (c.toNat - 48)) cs < 2 ^ 64 := by
        simp only [maxUint64] at h1; norm_num at h1 ⊢; omega
      rw [if_pos h1, if_neg this]
    · simp only [h1, if_false]
      have hn10 : n * 10 < 2 ^ 64 := by
        simp only [maxUint64] at h1; norm_num at h1 ⊢; omega
      by_cases h2 : n * 10 + (c.toNat - 48) < 2 ^ 64
      · have e1 : (n * 10) % 2 ^ 64 = n * 10 := Nat.mod_eq_of_lt hn10
        have e2 : (n * 10 + (c.toNat - 48)) % 2 ^ 64 = n * 10 + (c.toNat - 48) :=
          Nat.mod_eq_of_lt h2
        have h3 : ¬ (n * 10 + (c.toNat - 48) < n * 10 ∨ n * 10 + (c.toNat - 48) > maxUint64) := by
          simp only [maxUint64]; norm_num at h2 ⊢; omega
        simp only [e1, e2, h3, if_false]
        exact ih _ hcs h2
      · have e1 : (n * 10) % 2 ^ 64 = n * 10 := Nat.mod_eq_of_lt hn10
        have h3 : (n * 10 + (c.toNat - 48)) % 2 ^ 64 < n * 10 := by
          norm_num at h2 hn10 ⊢; omega
        have : ¬ valFrom (n * 10 + (c.toNat - 48)) cs < 2 ^ 64 := by omega
        rw [e1, if_pos (Or.inl h3), if_neg this]

theorem ParseUintLoop_nondigit (s0 : String) (ds : List Char) :
    ∀ n, (∃ c ∈ ds, ¬ isDecimalDigit c) →
      ∃ v e, ParseUintLoop s0 ds n = (v, some e) ∧ (e.Err = ErrRangeText → v = maxUint64) := by
  induction ds with
  | nil => intro n h; simp at h
  | cons c cs ih =>
    intro n h
    unfold ParseUintLoop
    by_cases hc : 48 ≤ c.toNat ∧ c.toNat ≤ 57
    · have hcs : ∃ x ∈ cs, ¬ isDecimalDigit x := by
        rcases h with ⟨x, hx, hnx⟩
        rcases List.mem_cons.mp hx with rfl | hx
        · exact absurd hc hnx
        · exact ⟨x, hx, hnx⟩
      simp only [hc, and_self, if_true]
      split
      · exact ⟨_, _, rfl, fun _ => rfl⟩
      · split
        · exact ⟨_, _, rfl, fun _ => rfl⟩
        · exact ih _ hcs
    · simp only [hc, if_false]
      exact ⟨_, _, rfl, fun h => by simp [numSyntaxErr, ErrSyntaxText, ErrRangeText] at h⟩

theorem mk_cons_ne_empty (c : Char) (ds : List Char) : (⟨c :: ds⟩ : String) ≠ "" := by
  intro h
  have := congrArg String.data h
  simp at this

theorem ParseUint_cases (ds : List Char) :
    (isDigits ds ∧ valFrom 0 ds < 2 ^ 64 ∧ ParseUint ⟨ds⟩ = (valFrom 0 ds, none)) ∨
      ((¬ isDigits ds ∨ 2 ^ 64 ≤ valFrom 0 ds) ∧
        ∃ v e, ParseUint ⟨ds⟩ = (v, some e) ∧ (e.Err = ErrRangeText → v = maxUint64)) := by
  cases ds with
  | nil =>
    right
    refine ⟨Or.inl (by simp [isDigits]), 0, numSyntaxErr "ParseUint" "", ?_, ?_⟩
    · rfl
    · intro h; simp [numSyntaxErr, ErrSyntaxText, ErrRangeText] at h
  | cons c cs =>
    have hne := mk_cons_ne_empty c cs
    have hU : ParseUint ⟨c :: cs⟩ = ParseUintLoop ⟨c :: cs⟩ (c :: cs) 0 := by
      unfold ParseUint; rw [if_neg hne]
    by_cases hd : ∀ x ∈ c :: cs, isDecimalDigit x
    · have hl := ParseUintLoop_digits ⟨c :: cs⟩ (c :: cs) 0 hd (by norm_num)
      by_cases hv : valFrom 0 (c :: cs) < 2 ^ 64
      · left
        rw [if_pos hv] at hl
        exact ⟨⟨by simp, hd⟩, hv, hU.trans hl⟩
      · right
        rw [if_neg hv] at hl
        exact ⟨Or.inr (by omega), _, _, hU.trans hl, fun _ => rfl⟩
    · right
      have hex : ∃ x ∈ c :: cs, ¬ isDecimalDigit x := by
        by_contra hcon
        exact hd (fun x hx => by_contra (fun hnx => hcon ⟨x, hx, hnx⟩))
      rcases ParseUintLoop_nondigit ⟨c :: cs⟩ (c :: cs) 0 hex with ⟨v, e, h1, h2⟩
      exact ⟨Or.inl (fun h => hd h.2), v, e, hU.trans h1, h2⟩

/-- The rest of `ParseInt` once the sign is stripped: from the sign, the
original text and the result of `ParseUint`. -/
theorem ParseInt_cons (c : Char) (ds : List Char) :
    ParseInt ⟨c :: ds⟩ =
      match ParseUint (if c = '+' then ⟨ds⟩ else if c = '-' then ⟨ds⟩ else ⟨c :: ds⟩) with
      | (un, err) =>
        match err.filter (fun e => e.Err ≠ ErrRangeText) with
        | some e => (0, some ⟨"ParseInt", ⟨c :: ds⟩, e.Err⟩)
        | none =>
          if ¬ (c = '-') ∧ un ≥ 2 ^ 63 then
            (toInt64 ((2 ^ 63 - 1 : Nat) : Int), some (rangeError "ParseInt" ⟨c :: ds⟩))
          else if c = '-' ∧ un > 2 ^ 63 then
            (toInt64 (-(toInt64 ((2 ^ 63 : Nat) : Int))), some (rangeError "ParseInt" ⟨c :: ds⟩))
          else
            (if c = '-' then toInt64 (-(toInt64 un)) else toInt64 un, none) := by
  unfold ParseInt
  rw [if_neg (mk_cons_ne_empty c ds)]
  simp

theorem toInt64_of_lt (v : Nat) (h : v < 2 ^ 63) : toInt64 v = v := by
  unfold toInt64
  norm_num at h ⊢
  omega

theorem toInt64_neg_of_le (v : Nat) (h : v ≤ 2 ^ 63) : toInt64 (-(toInt64 v)) = -(v : Int) := by
  unfold toInt64
  norm_num at h ⊢
  omega

theorem base10Int64_cons (c : Char) (ds : List Char) :
    base10Int64 ⟨c :: ds⟩ =
      if c = '-' then
        (if isDigits ds ∧ valFrom 0 ds ≤ 2 ^ 63 then some (-(valFrom 0 ds : Int)) else none)
      else if c = '+' then
        (if isDigits ds ∧ valFrom 0 ds < 2 ^ 63 then some (valFrom 0 ds : Int) else none)
      else
        (if isDigits (c :: ds) ∧ valFrom 0 (c :: ds) < 2 ^ 63 then
          some (valFrom 0 (c :: ds) : Int) else none) := by
  unfold base10Int64
  split
  · next h => simp at h; simp [h.1, h.2]
  · next h => simp at h; simp [h.1, h.2]
  · next h1 h2 =>
    have n1 : c ≠ '-' := fun h => h1 ds (by simp [h])
    have n2 : c ≠ '+' := fun h => h2 ds (by simp [h])
    simp [n1, n2]

theorem ParseInt_post (neg : Prop) [Decidable neg] (s0 : String) (t : List Char) :
    ((isDigits t ∧ (if neg then valFrom 0 t ≤ 2 ^ 63 else valFrom 0 t < 2 ^ 63)) ∧
      (match ParseUint ⟨t⟩ with
        | (un, err) =>
          match err.filter (fun e => e.Err ≠ ErrRangeText) with
          | some e => ((0 : Int), some (⟨"ParseInt", s0, e.Err⟩ : NumError))
          | none =>
            if ¬ neg ∧ un ≥ 2 ^ 63 then
              (toInt64 ((2 ^ 63 - 1 : Nat) : Int), some (rangeError "ParseInt" s0))
            else if neg ∧ un > 2 ^ 63 then
              (toInt64 (-(toInt64 ((2 ^ 63 : Nat) : Int))), some (rangeError "ParseInt" s0))
            else
              (if neg then toInt64 (-(toInt64 un)) else toInt64 un, none)) =
        (if neg then -(valFrom 0 t : Int) else (valFrom 0 t : Int), none)) ∨
    (¬ (isDigits t ∧ (if neg then valFrom 0 t ≤ 2 ^ 63 else valFrom 0 t < 2 ^ 63)) ∧
      ∃ v e,
        (match ParseUint ⟨t⟩ with
        | (un, err) =>
          match err.filter (fun e => e.Err ≠ ErrRangeText) with
          | some e => ((0 : Int), some (⟨"ParseInt", s0, e.Err⟩ : NumError))
          | none =>
            if ¬ neg ∧ un ≥ 2 ^ 63 then
              (toInt64 ((2 ^ 63 - 1 : Nat) : Int), some (rangeError "ParseInt" s0))
            else if neg ∧ un > 2 ^ 63 then
              (toInt64 (-(toInt64 ((2 ^ 63 : Nat) : Int))), some (rangeError "ParseInt" s0))
            else
              (if neg then toInt64 (-(toInt64 un)) else toInt64 un, none)) = (v, some e) ∧
        e.Func = "ParseInt" ∧ e.Num = s0) := by
  rcases ParseUint_cases t with ⟨hd, hv, hU⟩ | ⟨hbad, v, e, hU, hr⟩
  · rw [hU]
    simp only [Option.filter]
    by_cases hn : neg
    · simp only [hn, not_true_eq_false, false_and, if_false, true_and, if_true]
      by_cases h2 : valFrom 0 t > 2 ^ 63
      · right
        rw [if_pos h2]
        exact ⟨fun h => by omega, _, _, rfl, rfl, rfl⟩
      · left
        rw [if_neg h2]
        have h3 : valFrom 0 t ≤ 2 ^ 63 := by omega
        exact ⟨⟨hd, h3⟩, by rw [toInt64_neg_of_le _ h3]⟩
    · simp only [hn, not_false_eq_true, true_and, false_and, if_false]
      by_cases h2 : valFrom 0 t ≥ 2 ^ 63
      · right
        rw [if_pos h2]
        exact ⟨fun h => by omega, _, _, rfl, rfl, rfl⟩
      · left
        rw [if_neg h2]
        have h3 : valFrom 0 t < 2 ^ 63 := by omega
        exact ⟨⟨hd, h3⟩, by rw [toInt64_of_lt _ h3]⟩
  · right
    have hnot : ¬ (isDigits t ∧ (if neg then valFrom 0 t ≤ 2 ^ 63 else valFrom 0 t < 2 ^ 63)) := by
      rintro ⟨h1, h2⟩
      rcases hbad with hb | hb
      · exact hb h1
      · split at h2 <;> omega
    refine ⟨hnot, ?_⟩
    rw [hU]
    by_cases hk : e.Err = ErrRangeText
    · have hv := hr hk
      subst hv
      have hf : Option.filter (fun e => decide (e.Err ≠ ErrRangeText)) (some e) = none := by
        simp [Option.filter, hk]
      simp only [hf]
      by_cases hn : neg
      · have h2 : maxUint64 > 2 ^ 63 := by unfold maxUint64; norm_num
        simp only [hn, not_true_eq_false, false_and, if_false, true_and, if_pos h2]
        exact ⟨_, _, rfl, rfl, rfl⟩
      · have h2 : maxUint64 ≥ 2 ^ 63 := by unfold maxUint64; norm_num
        simp only [hn, not_false_eq_true, true_and, if_pos h2]
        exact ⟨_, _, rfl, rfl, rfl⟩
    · have hf : Option.filter (fun e => decide (e.Err ≠ ErrRangeText)) (some e) = some e := by
        simp [Option.filter, hk]
      simp only [hf]
      exact ⟨_, _, rfl, rfl, rfl⟩

/-- ParseInt accepts exactly the base-10 signed 64-bit integers, with their
value. -/
theorem ParseInt_spec (s : String) :
    (∃ n, base10Int64 s = some n ∧ ParseInt s = (n, none)) ∨
      (base10Int64 s = none ∧ ∃ v e, ParseInt s = (v, some e) ∧ e.Func = "ParseInt" ∧ e.Num = s) := by
  obtain ⟨l⟩ := s
  cases l with
  | nil => right; exact ⟨rfl, 0, numSyntaxErr "ParseInt" "", rfl, rfl, rfl⟩
  | cons c ds =>
    rw [ParseInt_cons, base10Int64_cons]
    by_cases hm : c = '-'
    · have hp : c ≠ '+' := by rw [hm]; decide
      simp only [hm, if_true] at *
      have hp2 : ¬ ('-' = '+') := by decide
      simp only [hp2, if_false]
      rcases ParseInt_post True ⟨'-' :: ds⟩ ds with ⟨hc, hr⟩ | ⟨hc, hr⟩
      · left
        simp only [if_true] at hc hr
        refine ⟨_, by rw [if_pos hc], ?_⟩
        simpa using hr
      · right
        simp only [if_true] at hc hr
        refine ⟨by rw [if_neg hc], ?_⟩
        simpa using hr
    · by_cases hp : c = '+'
      · simp only [hp, if_true] at *
        rcases ParseInt_post False ⟨'+' :: ds⟩ ds with ⟨hc, hr⟩ | ⟨hc, hr⟩
        · left
          simp only [if_false] at hc hr
          refine ⟨_, by rw [if_neg hm, if_pos hc], ?_⟩
          simpa [hm] using hr
        · right
          simp only [if_false] at hc hr
          refine ⟨by rw [if_neg hm, if_neg hc], ?_⟩
          simpa [hm] using hr
      · simp only [hp, hm, if_false]
        rcases ParseInt_post False ⟨c :: ds⟩ (c :: ds) with ⟨hc, hr⟩ | ⟨hc, hr⟩
        · left
          simp only [if_false] at hc hr
          refine ⟨_, by rw [if_pos hc], ?_⟩
          simpa using hr
        · right
          simp only [if_false] at hc hr
          refine ⟨by rw [if_neg hc], ?_⟩
          simpa using hr

theorem ParseUintLoop_errKind (s0 : String) (ds : List Char) :
    ∀ n v e, ParseUintLoop s0 ds n = (v, some e) →
      e.Err = ErrSyntaxText ∨ e.Err = ErrRangeText := by
  induction ds with
  | nil => intro n v e h; simp [ParseUintLoop] at h
  | cons c cs ih =>
    intro n v e h
    unfold ParseUintLoop at h
    split at h
    · split at h
      · simp only [Prod.mk.injEq, Option.some.injEq] at h
        rw [← h.2]; exact Or.inr rfl
      · dsimp only at h
        split at h
        · simp only [Prod.mk.injEq, Option.some.injEq] at h
          rw [← h.2]; exact Or.inr rfl
        · exact ih _ v e h
    · simp only [Prod.mk.injEq, Option.some.injEq] at h
      rw [← h.2]; exact Or.inl rfl

theorem ParseUint_errKind (s : String) (v : Nat) (e : NumError)
    (h : ParseUint s = (v, some e)) : e.Err = ErrSyntaxText ∨ e.Err = ErrRangeText := by
  unfold ParseUint at h
  split at h
  · simp only [Prod.mk.injEq, Option.some.injEq] at h
    rw [← h.2]; exact Or.inl rfl
  · exact ParseUintLoop_errKind s s.data 0 v e h

/-- The error of ParseInt names ParseInt and the text it was given, and is
one of the two kinds. -/
theorem ParseInt_errKind (s : String) (v : Int) (e : NumError)
    (h : ParseInt s = (v, some e)) :
    e.Func = "ParseInt" ∧ e.Num = s ∧ (e.Err = ErrSyntaxText ∨ e.Err = ErrRangeText) := by
  unfold ParseInt at h
  split at h
  · simp only [Prod.mk.injEq, Option.some.injEq] at h
    rw [← h.2]; exact ⟨rfl, rfl, Or.inl rfl⟩
  · simp only at h
    generalize hU : ParseUint (if s.data.head? = some '+' then ⟨s.data.tail⟩
      else if s.data.head? = some '-' then ⟨s.data.tail⟩ else s) = r at h
    obtain ⟨un, err⟩ := r
    cases err with
    | none =>
      simp only [Option.filter] at h
      split at h
      · simp only [Prod.mk.injEq, Option.some.injEq] at h
        rw [← h.2]; exact ⟨rfl, rfl, Or.inr rfl⟩
      · split at h
        · simp only [Prod.mk.injEq, Option.some.injEq] at h
          rw [← h.2]; exact ⟨rfl, rfl, Or.inr rfl⟩
        · simp at h
    | some e1 =>
      have hk := ParseUint_errKind _ un e1 hU
      by_cases hr : e1.Err = ErrRangeText
      · have hf : Option.filter (fun e => decide (e.Err ≠ ErrRangeText)) (some e1) = none := by
          simp [Option.filter, hr]
        simp only [hf] at h
        split at h
        · simp only [Prod.mk.injEq, Option.some.injEq] at h
          rw [← h.2]; exact ⟨rfl, rfl, Or.inr rfl⟩
        · split at h
          · simp only [Prod.mk.injEq, Option.some.injEq] at h
            rw [← h.2]; exact ⟨rfl, rfl, Or.inr rfl⟩
          · simp at h
      · have hf : Option.filter (fun e => decide (e.Err ≠ ErrRangeText)) (some e1) = some e1 := by
          simp [Option.filter, hr]
        simp only [hf, Prod.mk.injEq, Option.some.injEq] at h
        rw [← h.2]
        exact ⟨rfl, rfl, hk⟩

/-! ### strconv.Quote adds no '%' -/

theorem lowerhex_ne_percent (n : Nat) : lowerhex n ≠ '%' := by
  unfold lowerhex
  by_cases h : n < 16
  · interval_cases n <;> decide
  · have : "0123456789abcdef".data.length ≤ n := by
      have : "0123456789abcdef".data.length = 16 := rfl
      omega
    rw [List.getD_eq_default _ _ this]
    decide

theorem not_mem_pair (a b : Char) (ha : '%' ≠ a) (hb : '%' ≠ b) : '%' ∉ [a, b] := by
  intro h
  rcases List.mem_cons.mp h with h | h
  · exact ha h
  · exact hb (List.mem_singleton.mp h)

theorem not_mem_hex (pre : List Char) (hpre : '%' ∉ pre) (f : Nat → Nat) (l : List Nat) :
    '%' ∉ pre ++ l.map (fun s => lowerhex (f s)) := by
  intro h
  rcases List.mem_append.mp h with h | h
  · exact hpre h
  · rcases List.mem_map.mp h with ⟨x, _, hx⟩
    exact lowerhex_ne_percent _ hx

theorem appendEscapedRune_percent (isPrintWide : Char → Bool) (r : Char)
    (h : '%' ∈ appendEscapedRune isPrintWide r) : r = '%' := by
  unfold appendEscapedRune at h
  by_cases c1 : r = '"' ∨ r = '\\'
  · rw [if_pos c1] at h
    rcases List.mem_cons.mp h with h | h
    · exact absurd h (by decide)
    · exact (List.mem_singleton.mp h).symm
  rw [if_neg c1] at h
  by_cases c2 : IsPrint isPrintWide r = true
  · rw [if_pos c2] at h
    exact (List.mem_singleton.mp h).symm
  rw [if_neg c2] at h
  exfalso
  by_cases c3 : r.toNat = 7
  · rw [if_pos c3] at h; exact not_mem_pair _ _ (by decide) (by decide) h
  rw [if_neg c3] at h
  by_cases c4 : r.toNat = 8
  · rw [if_pos c4] at h; exact not_mem_pair _ _ (by decide) (by decide) h
  rw [if_neg c4] at h
  by_cases c5 : r.toNat = 12
  · rw [if_pos c5] at h; exact not_mem_pair _ _ (by decide) (by decide) h
  rw [if_neg c5] at h
  by_cases c6 : r = '\n'
  · rw [if_pos c6] at h; exact not_mem_pair _ _ (by decide) (by decide) h
  rw [if_neg c6] at h
  by_cases c7 : r = '\r'
  · rw [if_pos c7] at h; exact not_mem_pair _ _ (by decide) (by decide) h
  rw [if_neg c7] at h
  by_cases c8 : r = '\t'
  · rw [if_pos c8] at h; exact not_mem_pair _ _ (by decide) (by decide) h
  rw [if_neg c8] at h
  by_cases c9 : r.toNat = 11
  · rw [if_pos c9] at h; exact not_mem_pair _ _ (by decide) (by decide) h
  rw [if_neg c9] at h
  by_cases c10 : r.toNat < 0x20 ∨ r.toNat = 0x7f
  · rw [if_pos c10] at h
    rcases List.mem_cons.mp h with h | h
    · exact absurd h (by decide)
    rcases List.mem_cons.mp h with h | h
    · exact absurd h (by decide)
    rcases List.mem_cons.mp h with h | h
    · exact lowerhex_ne_percent _ h.symm
    · exact lowerhex_ne_percent _ (List.mem_singleton.mp h).symm
  rw [if_neg c10] at h
  by_cases c11 : r.toNat < 0x10000
  · rw [if_pos c11] at h
    exact not_mem_hex _ (by decide) (fun s => r.toNat / 2 ^ s % 16) _ h
  · rw [if_neg c11] at h
    exact not_mem_hex _ (by decide) (fun s => r.toNat / 2 ^ s % 16) _ h

theorem Quote_percent (isPrintWide : Char → Bool) (s : String)
    (h : '%' ∈ (Quote isPrintWide s).data) : '%' ∈ s.data := by
  unfold Quote at h
  simp only [List.mem_append, List.mem_singleton, List.mem_flatten, List.mem_map] at h
  rcases h with (h | ⟨l, ⟨r, hr, rfl⟩, hl⟩) | h
  · exact absurd h (by decide)
  · rw [appendEscapedRune_percent isPrintWide r hl] at hr
    exact hr
  · exact absurd h (by decide)

theorem Error_percent_free (isPrintWide : Char → Bool) (e : NumError)
    (hF : e.Func = "ParseInt") (hE : e.Err = ErrSyntaxText ∨ e.Err = ErrRangeText)
    (hp : '%' ∉ e.Num.data) : '%' ∉ (e.Error (Quote isPrintWide)).data := by
  intro h
  unfold NumError.Error at h
  rw [hF] at h
  simp only [String.data_append, List.mem_append] at h
  have hq : '%' ∉ (Quote isPrintWide e.Num).data := fun x => hp (Quote_percent _ _ x)
  have hErr : '%' ∉ e.Err.data := by
    rcases hE with hE | hE <;> rw [hE] <;> decide
  rcases h with ((((((h | h) | h) | h) | h) | h) | h)
  · exact absurd h (by decide)
  · exact absurd h (by decide)
  · exact absurd h (by decide)
  · exact absurd h (by decide)
  · exact hq h
  · exact absurd h (by decide)
  · exact hErr h

/-! ### strings.Join and the alias listing -/

theorem foldl_sep_eq (rest : List String) :
    ∀ e : String, rest ≠ [] →
      rest.foldl (fun b s => b ++ "\n" ++ s) e = e ++ "\n" ++ joinLines rest := by
  induction rest with
  | nil => intro e h; exact absurd rfl h
  | cons x r ih =>
    intro e _
    cases r with
    | nil => simp [joinLines]
    | cons y r2 =>
      have h := ih (e ++ "\n" ++ x) (by simp)
      rw [List.foldl_cons, h]
      simp [joinLines, String.append_assoc]

theorem Join_eq_joinLines (elems : List String) : Join elems "\n" = joinLines elems := by
  cases elems with
  | nil => rfl
  | cons e rest =>
    cases rest with
    | nil => rfl
    | cons x r =>
      show (x :: r).foldl (fun b s => b ++ "\n" ++ s) e = _
      rw [foldl_sep_eq (x :: r) e (by simp)]
      simp [joinLines]

theorem foldl_snoc_eq_map (visit : List (String × String)) :
    ∀ acc : List String,
      visit.foldl (fun slice kv => slice ++ [kv.1 ++ " : " ++ kv.2]) acc =
        acc ++ visit.map aliasLine := by
  induction visit with
  | nil => intro acc; simp
  | cons kv rest ih => intro acc; simp [List.foldl_cons, ih, aliasLine]

theorem allAliases_eq (visit : List (String × String)) :
    allAliases visit = joinLines (visit.map aliasLine) := by
  unfold allAliases
  simp only [foldl_snoc_eq_map, List.nil_append]
  cases visit with
  | nil => simp [joinLines]
  | cons kv rest => simp [Join_eq_joinLines]

theorem joinLines_length (lines : List String) :
    (joinLines lines).length = (lines.map String.length).sum + (lines.length - 1) := by
  induction lines with
  | nil => simp [joinLines]
  | cons l rest ih =>
    cases rest with
    | nil => simp [joinLines]
    | cons x r =>
      simp only [joinLines] at ih ⊢
      simp only [String.length_append, List.map_cons, List.sum_cons, List.length_cons] at ih ⊢
      have : ("\n" : String).length = 1 := rfl
      omega

/-! ### The alias map -/

theorem get_set {β : Type} (m : GoMap β) (k : String) (v : β) (k2 : String) :
    (m.set k v).get k2 = if k = k2 then some v else m.get k2 := by
  induction m with
  | nil => simp [GoMap.set, GoMap.get]
  | cons e rest ih =>
    obtain ⟨k0, v0⟩ := e
    by_cases h0 : k0 = k
    · by_cases h2 : k = k2
      · simp [GoMap.set, GoMap.get, h0, h2]
      · have : ¬ k0 = k2 := by rw [h0]; exact h2
        simp [GoMap.set, GoMap.get, h0, h2]
    · simp only [GoMap.set, h0, if_false, GoMap.get]
      by_cases h3 : k0 = k2
      · have h2 : ¬ k = k2 := by rw [← h3]; exact fun x => h0 x.symm
        rw [if_pos h3, if_neg h2, if_pos h3]
      · rw [if_neg h3, if_neg h3]
        exact ih

theorem mem_keys_iff {β : Type} (m : GoMap β) (k : String) :
    k ∈ m.keys ↔ (m.get k).isSome = true := by
  induction m with
  | nil => simp [GoMap.keys, GoMap.get]
  | cons e rest ih =>
    obtain ⟨k0, v0⟩ := e
    by_cases h : k0 = k
    · simp [GoMap.keys, GoMap.get, h]
    · have h2 : ¬ k = k0 := fun x => h x.symm
      simp only [GoMap.keys, List.map_cons, List.mem_cons, h2, false_or, GoMap.get, h, if_false]
      exact ih

theorem keys_set_nodup {β : Type} (m : GoMap β) (k : String) (v : β)
    (h : m.keys.Nodup) : (m.set k v).keys.Nodup := by
  induction m with
  | nil => simp [GoMap.set, GoMap.keys]
  | cons e rest ih =>
    obtain ⟨k0, v0⟩ := e
    simp only [GoMap.keys, List.map_cons, List.nodup_cons] at h
    by_cases h0 : k0 = k
    · simp only [GoMap.set, h0, if_true, GoMap.keys, List.map_cons, List.nodup_cons]
      rw [h0] at h
      exact h
    · simp only [GoMap.set, h0, if_false, GoMap.keys, List.map_cons, List.nodup_cons]
      refine ⟨?_, ih h.2⟩
      intro hm
      have h1 := (mem_keys_iff (GoMap.set rest k v) k0).mp hm
      rw [get_set] at h1
      have h2 : ¬ k = k0 := fun x => h0 x.symm
      rw [if_neg h2] at h1
      exact h.1 ((mem_keys_iff rest k0).mpr h1)

theorem loop_append (l1 l2 : List AliasModel) :
    ∀ m, createAliasMapLoop (l1 ++ l2) m = createAliasMapLoop l2 (createAliasMapLoop l1 m) := by
  induction l1 with
  | nil => intro m; rfl
  | cons e rest ih => intro m; simp [createAliasMapLoop, ih]

theorem loop_get_of_absent (l : List AliasModel) (name : String) :
    ∀ m, (∀ e ∈ l, e.AliasName ≠ name) →
      (createAliasMapLoop l m).get name = m.get name := by
  induction l with
  | nil => intro m _; rfl
  | cons e rest ih =>
    intro m h
    have he : e.AliasName ≠ name := h e (List.mem_cons_self _ _)
    simp only [createAliasMapLoop]
    rw [ih _ (fun x hx => h x (List.mem_cons_of_mem _ hx)), get_set, if_neg he]

theorem loop_keys_nodup (l : List AliasModel) :
    ∀ m : GoMap String, m.keys.Nodup → (createAliasMapLoop l m).keys.Nodup := by
  induction l with
  | nil => intro m h; exact h
  | cons e rest ih => intro m h; exact ih _ (keys_set_nodup m _ _ h)

theorem loop_get_last (pre post : List AliasModel) (e : AliasModel) (m : GoMap String)
    (h : ∀ x ∈ post, x.AliasName ≠ e.AliasName) :
    (createAliasMapLoop (pre ++ e :: post) m).get e.AliasName = some e.AliasTo := by
  rw [loop_append]
  simp only [createAliasMapLoop]
  rw [loop_get_of_absent post e.AliasName _ h, get_set, if_pos rfl]

theorem exists_last (l : List AliasModel) (name : String) :
    (∃ e ∈ l, e.AliasName = name) →
      ∃ pre e post, l = pre ++ e :: post ∧ e.AliasName = name ∧
        ∀ x ∈ post, x.AliasName ≠ name := by
  induction l with
  | nil => intro h; simp at h
  | cons a rest ih =>
    intro h
    by_cases hr : ∃ e ∈ rest, e.AliasName = name
    · rcases ih hr with ⟨pre, e, post, h1, h2, h3⟩
      exact ⟨a :: pre, e, post, by simp [h1], h2, h3⟩
    · have ha : a.AliasName = name := by
        rcases h with ⟨e, he, hn⟩
        rcases List.mem_cons.mp he with rfl | he
        · exact hn
        · exact absurd ⟨e, he, hn⟩ hr
      exact ⟨[], a, rest, rfl, ha, fun x hx hn => hr ⟨x, hx, hn⟩⟩

/-! ### The root handler -/

theorem wellFormed_of_forall (query : Values) (h : ∀ e ∈ query, e.2 ≠ []) :
    WellFormed query := by
  induction query with
  | nil => intro k vs hk; simp [GoMap.get] at hk
  | cons e rest ih =>
    obtain ⟨k0, v0⟩ := e
    intro k vs hk
    by_cases h0 : k0 = k
    · simp only [GoMap.get, h0, if_true, Option.some.injEq] at hk
      rw [← hk]
      exact h (k0, v0) (List.mem_cons_self _ _)
    · simp only [GoMap.get, h0, if_false] at hk
      exact ih (fun x hx => h x (List.mem_cons_of_mem _ hx)) k vs hk

theorem relay_calls (FileDriver : FileDriverFn) (aliases : GoMap String)
    (configJson : ConfigModel) (w : ResponseWriter) (request : QueryHolder) :
    (relay FileDriver aliases configJson w request).calls = [(request, aliases, configJson)] := by
  unfold relay
  rcases FileDriver request aliases configJson with ⟨a, _ | e⟩ <;> rfl

theorem relay_w (FileDriver : FileDriverFn) (aliases : GoMap String)
    (configJson : ConfigModel) (w : ResponseWriter) (request : QueryHolder) :
    (relay FileDriver aliases configJson w request).w =
      Fprintf w (match FileDriver request aliases configJson with
        | (_, some err) => err
        | (response, none) => response) := by
  unfold relay
  rcases FileDriver request aliases configJson with ⟨a, _ | e⟩ <;> rfl

theorem apiHandler_ok (quote : String → String) (FileDriver : FileDriverFn)
    (aliases : GoMap String) (configJson : ConfigModel)
    (w : ResponseWriter) (query : Values) (hq : WellFormed query)
    (n : Int) (hl : requestedLimit query = some n) :
    apiHandler quote FileDriver aliases configJson w query =
      some (relay FileDriver aliases configJson w (requestOf query n)) := by
  rw [apiHandler_eq quote FileDriver aliases configJson w query hq]
  unfold requestedLimit at hl
  cases hp : param query "limit" with
  | none =>
    rw [hp] at hl
    simp only [Option.some.injEq] at hl
    rw [← hl]
  | some s =>
    rw [hp] at hl
    simp only at hl ⊢
    rcases ParseInt_spec s with ⟨m, h1, h2⟩ | ⟨h1, _⟩
    · rw [h1] at hl
      simp only [Option.some.injEq] at hl
      rw [h2, hl]
    · rw [h1] at hl
      exact absurd hl (by simp)

theorem apiHandler_bad (quote : String → String) (FileDriver : FileDriverFn)
    (aliases : GoMap String) (configJson : ConfigModel)
    (w : ResponseWriter) (query : Values) (hq : WellFormed query)
    (s : String) (hs : param query "limit" = some s) (hbad : base10Int64 s = none) :
    ∃ v e, ParseInt s = (v, some e) ∧ e.Func = "ParseInt" ∧ e.Num = s ∧
      apiHandler quote FileDriver aliases configJson w query =
        some ⟨Fprintf w (e.Error quote), []⟩ := by
  rw [apiHandler_eq quote FileDriver aliases configJson w query hq, hs]
  rcases ParseInt_spec s with ⟨m, h1, _⟩ | ⟨_, v, e, h2, h3, h4⟩
  · rw [h1] at hbad
    exact absurd hbad (by simp)
  · exact ⟨v, e, h2, h3, h4, by simp only; rw [h2]⟩

theorem Sprintf_of_no_percent (s : String) (h : '%' ∉ s.data) : Sprintf s = s := by
  have hall : ∀ x ∈ s.data, (fun c : Char => decide (c ≠ '%')) x = true := by
    intro x hx
    have : x ≠ '%' := fun e => h (e ▸ hx)
    simpa using this
  unfold Sprintf doPrintf
  simp only [List.takeWhile_eq_self_iff.mpr hall, List.dropWhile_eq_nil_iff.mpr hall,
    List.nil_append]

theorem apiHandler_writes (quote : String → String) (FileDriver : FileDriverFn)
    (aliases : GoMap String) (configJson : ConfigModel)
    (w : ResponseWriter) (query : Values) (r : Run)
    (h : apiHandler quote FileDriver aliases configJson w query = some r) :
    ∃ text, r.w = Fprintf w text := by
  unfold apiHandler at h
  revert h
  generalize query.get "path" = o1
  generalize query.get "readFrom" = o2
  generalize query.get "limit" = o3
  generalize query.get "filterBy" = o4
  generalize query.get "ignore" = o5
  generalize query.get "alias" = o6
  rcases o1 with _ | _ | ⟨v1, vs1⟩ <;>
  rcases o2 with _ | _ | ⟨v2, vs2⟩ <;>
  rcases o3 with _ | _ | ⟨v3, vs3⟩ <;>
  rcases o4 with _ | _ | ⟨v4, vs4⟩ <;>
  rcases o5 with _ | _ | ⟨v5, vs5⟩ <;>
  rcases o6 with _ | _ | ⟨v6, vs6⟩ <;>
  simp only [index0, List.head?, bind, Option.bind, pure] <;>
  first
  | (intro h; exact absurd h (by simp))
  | (rcases ParseInt v3 with ⟨n, _ | e⟩ <;> simp only [] <;>
      first
      | (rintro ⟨⟩; exact ⟨_, rfl⟩)
      | (intro h; exact absurd h (by simp))
      | (rcases FileDriver _ aliases configJson with ⟨a, _ | e⟩ <;> rintro ⟨⟩ <;> exact ⟨_, rfl⟩))
  | (rcases FileDriver _ aliases configJson with ⟨a, _ | e⟩ <;> rintro ⟨⟩ <;> exact ⟨_, rfl⟩)

theorem aliasHandler_relays_percent_free (visit : List (String × String))
    (w : ResponseWriter) (hp : '%' ∉ (allAliases visit).data) :
    (aliasHandler visit w).body = w.body ++ allAliases visit := by
  simp only [aliasHandler, Fprintf, ResponseWriter.Write, Sprintf_of_no_percent _ hp]

theorem apiHandler_bad_limit_percent_free (isPrintWide : Char → Bool)
    (FileDriver : FileDriverFn) (aliases : GoMap String) (configJson : ConfigModel)
    (w : ResponseWriter) (query : Values) (hq : WellFormed query)
    (s : String) (hs : param query "limit" = some s) (hbad : base10Int64 s = none)
    (hp : '%' ∉ s.data) :
    ∃ v e r, ParseInt s = (v, some e) ∧
      apiHandler (Quote isPrintWide) FileDriver aliases configJson w query = some r ∧
      r.calls = [] ∧ r.w.body = w.body ++ e.Error (Quote isPrintWide) := by
  rcases apiHandler_bad (Quote isPrintWide) FileDriver aliases configJson w query hq s hs hbad
    with ⟨v, e, h1, hF, hN, h2⟩
  have hk := (ParseInt_errKind s v e h1).2.2
  have hfree := Error_percent_free isPrintWide e hF hk (by rw [hN]; exact hp)
  refine ⟨v, e, _, h1, h2, rfl, ?_⟩
  simp only [Fprintf, ResponseWriter.Write, Sprintf_of_no_percent _ hfree]

theorem apiHandler_relays_percent_free (quote : String → String) (FileDriver : FileDriverFn)
    (aliases : GoMap String) (configJson : ConfigModel)
    (w : ResponseWriter) (query : Values) (hq : WellFormed query)
    (n : Int) (hl : requestedLimit query = some n) (text : String)
    (ht : text = (match FileDriver (requestOf query n) aliases configJson with
        | (_, some err) => err
        | (response, none) => response))
    (hp : '%' ∉ text.data) :
    ∃ r, apiHandler quote FileDriver aliases configJson w query = some r ∧
      r.w.body = w.body ++ text := by
  refine ⟨_, apiHandler_ok quote FileDriver aliases configJson w query hq n hl, ?_⟩
  rw [relay_w, ← ht]
  simp only [Fprintf, ResponseWriter.Write, Sprintf_of_no_percent text hp]

/-! ## The claims -/

/-- C1: for every alias map, whatever the order in which the range loop visits
its entries, allAliases returns the empty string when the map is empty, and
otherwise the lines key + " : " + value, one for each entry of the map and each
exactly once (a permutation of the entries' lines), joined by single newline
separators with none leading or trailing, so that the length of the result is
the lengths of the lines plus one separator between consecutive lines. -/
theorem allAliases_lists_every_entry (aliases : GoMap String)
    (visit : List (String × String)) (hv : visit.Perm aliases) :
    (aliases = [] → allAliases visit = "") ∧
      (visit.map aliasLine).Perm (aliases.map aliasLine) ∧
      allAliases visit = joinLines (visit.map aliasLine) ∧
      (allAliases visit).length =
        ((aliases.map aliasLine).map String.length).sum + (aliases.length - 1) := by
  refine ⟨?_, hv.map _, allAliases_eq visit, ?_⟩
  · intro h
    rw [h] at hv
    rw [List.Perm.eq_nil hv]
    rfl
  · rw [allAliases_eq, joinLines_length, List.length_map, hv.length_eq]
    congr 1
    exact ((hv.map aliasLine).map String.length).sum_eq

theorem allAliases_lists_every_entry_witness :
    (createAliasMap sampleConfig = [] → allAliases sampleVisit = "") ∧
      (sampleVisit.map aliasLine).Perm ((createAliasMap sampleConfig).map aliasLine) ∧
      allAliases sampleVisit = joinLines (sampleVisit.map aliasLine) ∧
      (allAliases sampleVisit).length =
        (((createAliasMap sampleConfig).map aliasLine).map String.length).sum +
          ((createAliasMap sampleConfig).length - 1) :=
  allAliases_lists_every_entry (createAliasMap sampleConfig) sampleVisit
    (List.Perm.swap _ _ _)

/-- C8: after createAliasMap, a lookup of a name in the alias map is found
exactly when some configured entry has that AliasName; the value found is the
AliasTo of the last configured entry with that name, hence of the only one when
names are unique; every key of the map is a configured AliasName, and no key
occurs twice. -/
theorem createAliasMap_lookup (configJson : ConfigModel) :
    (∀ name, ((createAliasMap configJson).get name).isSome = true ↔
        ∃ e ∈ configJson.Aliases, e.AliasName = name) ∧
      (∀ pre e post, configJson.Aliases = pre ++ e :: post →
        (∀ x ∈ post, x.AliasName ≠ e.AliasName) →
          (createAliasMap configJson).get e.AliasName = some e.AliasTo) ∧
      ((configJson.Aliases.map AliasModel.AliasName).Nodup →
        ∀ e ∈ configJson.Aliases, (createAliasMap configJson).get e.AliasName = some e.AliasTo) ∧
      (∀ k ∈ (createAliasMap configJson).keys, ∃ e ∈ configJson.Aliases, e.AliasName = k) ∧
      (createAliasMap configJson).keys.Nodup := by
  have hfound : ∀ name, ((createAliasMap configJson).get name).isSome = true ↔
      ∃ e ∈ configJson.Aliases, e.AliasName = name := by
    intro name
    constructor
    · intro h
      by_contra hcon
      have habs : ∀ e ∈ configJson.Aliases, e.AliasName ≠ name :=
        fun e he hn => hcon ⟨e, he, hn⟩
      have := loop_get_of_absent configJson.Aliases name [] habs
      unfold createAliasMap at h
      rw [this] at h
      simp [GoMap.get] at h
    · intro h
      rcases exists_last _ _ h with ⟨pre, e, post, h1, h2, h3⟩
      have := loop_get_last pre post e [] (by rw [h2]; exact h3)
      unfold createAliasMap
      rw [h1, ← h2, this]
      rfl
  have hlast : ∀ pre e post, configJson.Aliases = pre ++ e :: post →
      (∀ x ∈ post, x.AliasName ≠ e.AliasName) →
        (createAliasMap configJson).get e.AliasName = some e.AliasTo := by
    intro pre e post h1 h2
    unfold createAliasMap
    rw [h1]
    exact loop_get_last pre post e [] h2
  refine ⟨hfound, hlast, ?_, ?_, ?_⟩
  · intro hnd e he
    rcases List.append_of_mem he with ⟨pre, post, hsplit⟩
    refine hlast pre e post hsplit ?_
    intro x hx hn
    rw [hsplit] at hnd
    simp only [List.map_append, List.map_cons] at hnd
    have h2 := (List.nodup_append.mp hnd).2.1
    have h3 := (List.nodup_cons.mp h2).1
    exact h3 (by rw [← hn]; exact List.mem_map_of_mem _ hx)
  · intro k hk
    exact (hfound k).mp ((mem_keys_iff _ k).mp hk)
  · exact loop_keys_nodup _ [] (by simp [GoMap.keys])

/-- C2: for every request whose limit parameter is absent or a base-10 signed
64-bit integer, apiHandler calls FileDriver once, with a QueryHolder that has
for path, alias, readFrom, filterBy (as Regex) and ignore (as NegateRegex) the
first supplied value of the parameter when it is present and otherwise the
default "", "", "tail", "" and "", and for Limit the value of the first
supplied limit when present and otherwise 10; Grep is "". -/
theorem apiHandler_request_fields (quote : String → String) (FileDriver : FileDriverFn)
    (aliases : GoMap String) (configJson : ConfigModel)
    (w : ResponseWriter) (query : Values) (hq : WellFormed query)
    (n : Int) (hl : requestedLimit query = some n) :
    (param query "limit" = none → n = 10) ∧
      (∀ s, param query "limit" = some s → base10Int64 s = some n) ∧
      ∃ r, apiHandler quote FileDriver aliases configJson w query = some r ∧
        r.calls =
          [(({ Path := (param query "path").getD "",
               Alias := (param query "alias").getD "",
               ReadFrom := (param query "readFrom").getD "tail",
               Limit := n,
               Regex := (param query "filterBy").getD "",
               NegateRegex := (param query "ignore").getD "",
               Grep := "" } : QueryHolder), aliases, configJson)] := by
  refine ⟨?_, ?_, _, apiHandler_ok quote FileDriver aliases configJson w query hq n hl, ?_⟩
  · intro h
    unfold requestedLimit at hl
    rw [h] at hl
    exact (Option.some.inj hl).symm
  · intro s h
    unfold requestedLimit at hl
    rw [h] at hl
    exact hl
  · rw [relay_calls]
    rfl

theorem apiHandler_request_fields_witness :
    ∃ r, apiHandler (Quote noWidePrint) echoDriver (createAliasMap sampleConfig) sampleConfig
        freshWriter sampleQuery = some r ∧
      r.calls =
        [(({ Path := "/var/log/syslog", Alias := "", ReadFrom := "head", Limit := 25,
             Regex := "", NegateRegex := "", Grep := "" } : QueryHolder),
          createAliasMap sampleConfig, sampleConfig)] :=
  (apiHandler_request_fields (Quote noWidePrint) echoDriver (createAliasMap sampleConfig)
    sampleConfig freshWriter sampleQuery
    (wellFormed_of_forall sampleQuery (by decide)) 25 (by decide)).2.2

/-- C3: what the code does at a limit that is not a number and holds a '%'.
With limit=%d next to a path and an alias, ParseInt fails and FileDriver is not
called, as the claim says, but the body is not the parse error: the error reads
`strconv.ParseInt: parsing "%d": invalid syntax` and the body gets
`strconv.ParseInt: parsing "%!d(MISSING)": invalid syntax`. -/
theorem bad_limit_percent_is_not_the_parse_error (isPrintWide : Char → Bool)
    (FileDriver : FileDriverFn) (aliases : GoMap String) (configJson : ConfigModel) :
    param percentBadLimitQuery "limit" = some "%d" ∧ base10Int64 "%d" = none ∧
      ∃ v e r, ParseInt "%d" = (v, some e) ∧
        apiHandler (Quote isPrintWide) FileDriver aliases configJson freshWriter
          percentBadLimitQuery = some r ∧
        r.calls = [] ∧
        e.Error (Quote isPrintWide) = "strconv.ParseInt: parsing \"%d\": invalid syntax" ∧
        r.w.body = "strconv.ParseInt: parsing \"%!d(MISSING)\": invalid syntax" ∧
        r.w.body ≠ e.Error (Quote isPrintWide) := by
  refine ⟨by decide, by decide, 0, numSyntaxErr "ParseInt" "%d", _, rfl, rfl, rfl, rfl, rfl, ?_⟩
  show ("strconv.ParseInt: parsing \"%!d(MISSING)\": invalid syntax" : String) ≠
    "strconv.ParseInt: parsing \"%d\": invalid syntax"
  decide

/-- C4, as stated, fails: with limit=-5 apiHandler calls FileDriver with
Limit -5 and writes what FileDriver returns. -/
theorem negative_limit_reaches_FileDriver :
    ∃ r, apiHandler (Quote noWidePrint) echoDriver (createAliasMap sampleConfig) sampleConfig
        freshWriter negativeLimitQuery = some r ∧
      r.calls.map (fun c => c.1.Limit) = [-5] ∧
      (∃ c ∈ r.calls, c.1.Limit < 0) ∧
      r.w.body = "tail /var/log/syslog" :=
  ⟨_, rfl, rfl, ⟨_, List.mem_cons_self _ _, by decide⟩, by decide⟩

/-- C4, amended: apiHandler does not look at the sign of the limit.  For every
request whose limit parameter is a base-10 signed 64-bit integer n, negative
or not, FileDriver is called once with Limit n (10 when the parameter is
absent), so the Limit it receives is at least 0 exactly when n is. -/
theorem apiHandler_forwards_limit (quote : String → String) (FileDriver : FileDriverFn)
    (aliases : GoMap String) (configJson : ConfigModel)
    (w : ResponseWriter) (query : Values) (hq : WellFormed query)
    (n : Int) (hl : requestedLimit query = some n) :
    ∃ r, apiHandler quote FileDriver aliases configJson w query = some r ∧
      r.calls.map (fun c => c.1.Limit) = [n] ∧
      ((∀ c ∈ r.calls, 0 ≤ c.1.Limit) ↔ 0 ≤ n) := by
  refine ⟨_, apiHandler_ok quote FileDriver aliases configJson w query hq n hl, ?_, ?_⟩
  · rw [relay_calls]; rfl
  · rw [relay_calls]; simp [requestOf]

theorem apiHandler_forwards_limit_witness :
    ∃ r, apiHandler (Quote noWidePrint) echoDriver (createAliasMap sampleConfig) sampleConfig
        freshWriter negativeLimitQuery = some r ∧
      r.calls.map (fun c => c.1.Limit) = [-5] ∧
      ((∀ c ∈ r.calls, 0 ≤ c.1.Limit) ↔ (0 : Int) ≤ -5) :=
  apiHandler_forwards_limit (Quote noWidePrint) echoDriver (createAliasMap sampleConfig)
    sampleConfig freshWriter negativeLimitQuery
    (wellFormed_of_forall negativeLimitQuery (by decide)) (-5) (by decide)

/-- C5, as stated, fails: with readFrom=sideways apiHandler calls FileDriver
with ReadFrom "sideways", which is neither "head" nor "tail". -/
theorem unchecked_readFrom_reaches_FileDriver :
    ∃ r, apiHandler (Quote noWidePrint) echoDriver (createAliasMap sampleConfig) sampleConfig
        freshWriter sidewaysQuery = some r ∧
      r.calls.map (fun c => c.1.ReadFrom) = ["sideways"] ∧
      (∃ c ∈ r.calls, c.1.ReadFrom ≠ "head" ∧ c.1.ReadFrom ≠ "tail") :=
  ⟨_, rfl, rfl, ⟨_, List.mem_cons_self _ _, by decide, by decide⟩⟩

/-- C5, amended: apiHandler does not validate the read direction.  For every
request whose limit parameter is absent or parses, FileDriver is called once
with ReadFrom equal to the first supplied readFrom value, whatever it is, and
"tail" when the parameter is absent; so the ReadFrom it receives is "head" or
"tail" exactly when the parameter is absent or has one of these two values. -/
theorem apiHandler_forwards_readFrom (quote : String → String) (FileDriver : FileDriverFn)
    (aliases : GoMap String) (configJson : ConfigModel)
    (w : ResponseWriter) (query : Values) (hq : WellFormed query)
    (n : Int) (hl : requestedLimit query = some n) :
    ∃ r, apiHandler quote FileDriver aliases configJson w query = some r ∧
      r.calls.map (fun c => c.1.ReadFrom) = [(param query "readFrom").getD "tail"] ∧
      ((∀ c ∈ r.calls, c.1.ReadFrom = "head" ∨ c.1.ReadFrom = "tail") ↔
        (param query "readFrom" = none ∨ param query "readFrom" = some "head" ∨
          param query "readFrom" = some "tail")) := by
  refine ⟨_, apiHandler_ok quote FileDriver aliases configJson w query hq n hl, ?_, ?_⟩
  · rw [relay_calls]; rfl
  · rw [relay_calls]
    cases h : param query "readFrom" with
    | none => simp [requestOf, h]
    | some v => simp [requestOf, h]

theorem apiHandler_forwards_readFrom_witness :
    ∃ r, apiHandler (Quote noWidePrint) echoDriver (createAliasMap sampleConfig) sampleConfig
        freshWriter sidewaysQuery = some r ∧
      r.calls.map (fun c => c.1.ReadFrom) = [(param sidewaysQuery "readFrom").getD "tail"] ∧
      ((∀ c ∈ r.calls, c.1.ReadFrom = "head" ∨ c.1.ReadFrom = "tail") ↔
        (param sidewaysQuery "readFrom" = none ∨ param sidewaysQuery "readFrom" = some "head" ∨
          param sidewaysQuery "readFrom" = some "tail")) :=
  apiHandler_forwards_readFrom (Quote noWidePrint) echoDriver (createAliasMap sampleConfig)
    sampleConfig freshWriter sidewaysQuery
    (wellFormed_of_forall sidewaysQuery (by decide)) 10 (by decide)

/-- C6, as stated, fails: with alias=nope, which is not a key of the alias map,
apiHandler calls FileDriver with Alias "nope". -/
theorem unknown_alias_reaches_FileDriver :
    ∃ r, apiHandler (Quote noWidePrint) echoDriver (createAliasMap sampleConfig) sampleConfig
        freshWriter unknownAliasQuery = some r ∧
      (createAliasMap sampleConfig).get "nope" = none ∧
      r.calls.map (fun c => c.1.Alias) = ["nope"] :=
  ⟨_, rfl, by decide, rfl⟩

/-- C6, amended: apiHandler does not look the alias up.  For every request
whose limit parameter is absent or parses, FileDriver is called once with Alias
equal to the first supplied alias value ("" when absent), whether or not that
value is a key of the alias map, and with the alias map itself as its second
argument. -/
theorem apiHandler_forwards_alias (quote : String → String) (FileDriver : FileDriverFn)
    (aliases : GoMap String) (configJson : ConfigModel)
    (w : ResponseWriter) (query : Values) (hq : WellFormed query)
    (n : Int) (hl : requestedLimit query = some n) :
    ∃ r, apiHandler quote FileDriver aliases configJson w query = some r ∧
      r.calls.map (fun c => (c.1.Alias, c.2.1)) =
        [((param query "alias").getD "", aliases)] := by
  refine ⟨_, apiHandler_ok quote FileDriver aliases configJson w query hq n hl, ?_⟩
  rw [relay_calls]; rfl

theorem apiHandler_forwards_alias_witness :
    ∃ r, apiHandler (Quote noWidePrint) echoDriver (createAliasMap sampleConfig) sampleConfig
        freshWriter unknownAliasQuery = some r ∧
      r.calls.map (fun c => (c.1.Alias, c.2.1)) =
        [((param unknownAliasQuery "alias").getD "", createAliasMap sampleConfig)] :=
  apiHandler_forwards_alias (Quote noWidePrint) echoDriver (createAliasMap sampleConfig)
    sampleConfig freshWriter unknownAliasQuery
    (wellFormed_of_forall unknownAliasQuery (by decide)) 10 (by decide)

/-- C7: what the code does at two inputs with a '%'.  With limit=%d the parse
error reads `strconv.ParseInt: parsing "%d": invalid syntax` and the body gets
`strconv.ParseInt: parsing "%!d(MISSING)": invalid syntax`; when FileDriver
returns "progress 100%" the body gets "progress 100%!(NOVERB)". -/
theorem percent_is_expanded_not_relayed (isPrintWide : Char → Bool)
    (FileDriver : FileDriverFn) (aliases : GoMap String) (configJson : ConfigModel)
    (Q : String → String) :
    (ParseInt "%d").2.map (NumError.Error (Quote isPrintWide)) =
        some "strconv.ParseInt: parsing \"%d\": invalid syntax" ∧
      apiHandler (Quote isPrintWide) FileDriver aliases configJson freshWriter
          percentLimitQuery =
        some ⟨⟨[], some 200, "strconv.ParseInt: parsing \"%!d(MISSING)\": invalid syntax"⟩, []⟩ ∧
      (apiHandler Q percentDriver aliases configJson freshWriter []).map (fun r => r.w.body) =
        some "progress 100%!(NOVERB)" := by
  refine ⟨rfl, rfl, rfl⟩

/-- C9: on every path through apiHandler and aliasHandler the response writer
is only written to: the header map is left as it was and the status is the one
already written, or 200 when none was, also on the paths where limit parsing or
FileDriver fails. -/
theorem handlers_only_write_body (quote : String → String) (FileDriver : FileDriverFn)
    (aliases : GoMap String) (configJson : ConfigModel)
    (w : ResponseWriter) (query : Values) (visit : List (String × String))
    (r : Run) (h : apiHandler quote FileDriver aliases configJson w query = some r) :
    (r.w.header = w.header ∧ r.w.status = some (w.status.getD 200)) ∧
      ((aliasHandler visit w).header = w.header ∧
        (aliasHandler visit w).status = some (w.status.getD 200)) := by
  rcases apiHandler_writes quote FileDriver aliases configJson w query r h with ⟨text, ht⟩
  rw [ht]
  exact ⟨⟨rfl, rfl⟩, rfl, rfl⟩

theorem handlers_only_write_body_witness :
    ((Run.mk (Fprintf freshWriter ((numSyntaxErr "ParseInt" "ten").Error (Quote noWidePrint)))
        []).w.header = [] ∧
      (Run.mk (Fprintf freshWriter ((numSyntaxErr "ParseInt" "ten").Error (Quote noWidePrint)))
        []).w.status = some 200) ∧
      ((aliasHandler (createAliasMap sampleConfig) freshWriter).header = [] ∧
        (aliasHandler (createAliasMap sampleConfig) freshWriter).status = some 200) :=
  handlers_only_write_body (Quote noWidePrint) failingDriver (createAliasMap sampleConfig)
    sampleConfig freshWriter badLimitQuery (createAliasMap sampleConfig) _ rfl

/-- C10: when every key present in the parsed query has at least one value,
each read of element 0 that apiHandler makes, which it makes only for a key
that is present, succeeds, and the handler runs to its end without a
panic. -/
theorem apiHandler_index_in_range (quote : String → String) (FileDriver : FileDriverFn)
    (aliases : GoMap String) (configJson : ConfigModel)
    (w : ResponseWriter) (query : Values) (hq : WellFormed query) :
    (∀ k slice, query.get k = some slice → ∃ v, index0 slice = some v) ∧
      ∃ r, apiHandler quote FileDriver aliases configJson w query = some r := by
  constructor
  · intro k slice hk
    cases slice with
    | nil => exact absurd rfl (hq k [] hk)
    | cons v vs => exact ⟨v, rfl⟩
  · cases hl : requestedLimit query with
    | some n => exact ⟨_, apiHandler_ok quote FileDriver aliases configJson w query hq n hl⟩
    | none =>
      unfold requestedLimit at hl
      cases hp : param query "limit" with
      | none => rw [hp] at hl; exact absurd hl (by simp)
      | some s =>
        rw [hp] at hl
        rcases apiHandler_bad quote FileDriver aliases configJson w query hq s hp hl with
          ⟨_, e, _, _, _, h⟩
        exact ⟨_, h⟩

theorem apiHandler_index_in_range_witness :
    (∀ k slice, sampleQuery.get k = some slice → ∃ v, index0 slice = some v) ∧
      ∃ r, apiHandler (Quote noWidePrint) failingDriver (createAliasMap sampleConfig)
        sampleConfig freshWriter sampleQuery = some r :=
  apiHandler_index_in_range (Quote noWidePrint) failingDriver (createAliasMap sampleConfig)
    sampleConfig freshWriter sampleQuery (wellFormed_of_forall sampleQuery (by decide))

end Vision
